import Mathlib

/-!
Verification of the todo-list script (src/todo_script.py) against its
specification.  The script keeps a global list of task description strings
and offers four operations: append a task, remove a task by index, print
the numbered list, and save the list to a file (one description per line).

Shallow embedding conventions:
* the global `todo_list` becomes an explicit `List String` argument;
* standard output becomes an explicit list of printed lines;
* the file written by `save_tasks` becomes the `String` of its content;
* Python `int` indices become `Int` (the source guards `0 <= index < len`).
-/

namespace TodoScript

/-- Embedding of `add_task(task)`: `todo_list.append(task)` puts `task` at the
end of the list. -/
def add_task (todo_list : List String) (task : String) : List String :=
  todo_list ++ [task]

/-- Embedding of `remove_task(index)`.  The source checks the chained
comparison `0 <= index < len(todo_list)`; inside the range it executes
`del todo_list[index]`, otherwise it prints `Invalid index`.  The result is
the pair (list after the call, lines printed to standard output). -/
def remove_task (todo_list : List String) (index : Int) :
    List String × List String :=
  if 0 ≤ index ∧ index < (todo_list.length : Int) then
    (todo_list.eraseIdx index.toNat, [])
  else
    (todo_list, ["Invalid index"])

/-- The loop body of `view_tasks`: `for i, task in enumerate(todo_list)`
prints `f"{i + 1}. {task}"`, with `i` the running counter of `enumerate`. -/
def view_loop : Nat → List String → List String
  | _, [] => []
  | i, task :: rest =>
      (toString (i + 1) ++ ". " ++ task) :: view_loop (i + 1) rest

/-- Embedding of `view_tasks()`: the list of lines printed to standard
output, in loop order (`enumerate` starts its counter at 0). -/
def view_tasks (todo_list : List String) : List String :=
  view_loop 0 todo_list

/-- Embedding of `save_tasks(filename)`: the content of the file after the
call.  `open(filename, 'w')` starts from an empty (truncated) file and the
loop appends `task + '\n'` for each task in order. -/
def save_tasks (todo_list : List String) : String :=
  todo_list.foldl (fun acc task => acc ++ (task ++ "\n")) ""

/-- File content at `filename` after `save_tasks`, given the content the
file had before the call.  Mode `'w'` truncates, so the old content is
discarded whatever it was: the parameter is deliberately unused. -/
def save_tasks_file (oldContent : String) (todo_list : List String) : String :=
  save_tasks todo_list

/-- `view_tasks` as a call on the store: (store after the call, printed
lines).  The `for` loop only reads `todo_list`; it never rebinds or
mutates it, so the store component is returned as received. -/
def view_tasks_call (todo_list : List String) : List String × List String :=
  (todo_list, view_tasks todo_list)

/-- `save_tasks` as a call on the store: (store after the call, file
content written).  The write loop only reads `todo_list`. -/
def save_tasks_call (todo_list : List String) : List String × String :=
  (todo_list, save_tasks todo_list)

/- Fault model for `save_tasks`.  The source wraps the write loop in
`with open(filename, 'w') as f:` and contains no `try`/`except`, so a
raised I/O error leaves the function uncaught while the context manager
still closes the handle.  We embed fallible I/O by an oracle: `openFails`
says whether `open` raises, `writeFails i` whether the i-th `f.write`
raises. -/

/-- Outcome of one `save_tasks` call under the fault model. -/
structure SaveRun where
  /-- File content after the call; `none` when `open` itself raised, in
  which case the file was never truncated nor written. -/
  content : Option String
  /-- Whether an exception left `save_tasks` and propagated to the caller
  (the source catches nothing). -/
  raised : Bool
  /-- Whether a file handle is still open after the call returns or
  raises. -/
  handleOpen : Bool

/-- The write loop of `save_tasks` under the fault model: writes
`task + '\n'` for each task in order, stopping at the first write that
raises.  Returns the content written so far and whether a write raised. -/
def write_loop (writeFails : Nat → Bool) :
    Nat → String → List String → String × Bool
  | _, acc, [] => (acc, false)
  | i, acc, task :: rest =>
      if writeFails i then (acc, true)
      else write_loop writeFails (i + 1) (acc ++ (task ++ "\n")) rest

/-- One `save_tasks` call under the fault model.  If `open` raises, the
`with` block is never entered and no handle exists.  Otherwise the file is
truncated, the loop runs until done or until a write raises, and the
`with` statement closes the handle on both the normal and the exceptional
exit; any exception then propagates, uncaught, to the caller. -/
def save_tasks_run (todo_list : List String) (openFails : Bool)
    (writeFails : Nat → Bool) : SaveRun :=
  if openFails then
    { content := none, raised := true, handleOpen := false }
  else
    let r := write_loop writeFails 0 "" todo_list
    { content := some r.1, raised := r.2, handleOpen := false }

/- Reading the saved file back.  The repository implements no reader, so
this is modelled from the spec. -/

/-- Splits a character list at every newline; always returns at least one
(possibly empty) segment, the text after the last newline. -/
def split_nl : List Char → List (List Char)
  | [] => [[]]
  | c :: rest =>
      match split_nl rest with
      | [] => [[]]
      | line :: more =>
          if c = '\n' then [] :: line :: more else (c :: line) :: more

/-- Modelled from the spec: the repository has no load/read operation, so
reading the saved file back as newline-delimited text is taken from the
spec's words (one task description per line, each line terminated by a
newline character).  The content is split at newlines and, when the
content ends in a newline, the final empty segment after it is not a
line. -/
def read_lines (s : String) : List String :=
  let parts := (split_nl s.data).map (fun cs => String.mk cs)
  if parts.getLast? = some "" then parts.dropLast else parts

/- The scripted top level: two appends, one view, one save. -/

/-- The store after the two scripted `add_task` calls at module top level. -/
def script_list : List String :=
  add_task (add_task [] "Buy groceries") "Read a book"

/-- Standard output of the scripted `view_tasks()` call. -/
def script_stdout : List String :=
  view_tasks script_list

/-- Content of `todo.txt` after the scripted `save_tasks("todo.txt")`. -/
def script_file : String :=
  save_tasks script_list

end TodoScript

namespace TodoScript

/- Helper lemmas about `List.eraseIdx`, the meaning of `del todo_list[index]`
for a nonnegative in-range index. -/

theorem eraseIdx_getElem?_lt {α : Type} :
    ∀ (l : List α) (n j : Nat), j < n → (l.eraseIdx n)[j]? = l[j]?
  | [], n, j, _ => by simp [List.eraseIdx]
  | _ :: _, 0, j, h => absurd h (Nat.not_lt_zero j)
  | _ :: _, n + 1, 0, _ => by simp [List.eraseIdx]
  | _ :: as, n + 1, j + 1, h => by
      simp only [List.eraseIdx, List.getElem?_cons_succ]
      exact eraseIdx_getElem?_lt as n j (Nat.lt_of_succ_lt_succ h)

theorem eraseIdx_getElem?_ge {α : Type} :
    ∀ (l : List α) (n j : Nat), n ≤ j → (l.eraseIdx n)[j]? = l[j + 1]?
  | [], n, j, _ => by simp [List.eraseIdx]
  | _ :: _, 0, j, _ => by simp [List.eraseIdx]
  | _ :: _, n + 1, 0, h => absurd h (by omega)
  | _ :: as, n + 1, j + 1, h => by
      simp only [List.eraseIdx, List.getElem?_cons_succ]
      exact eraseIdx_getElem?_ge as n j (Nat.le_of_succ_le_succ h)

theorem eraseIdx_length {α : Type} :
    ∀ (l : List α) (n : Nat), n < l.length → (l.eraseIdx n).length + 1 = l.length
  | [], n, h => absurd h (by simp)
  | _ :: _, 0, _ => by simp [List.eraseIdx]
  | _ :: as, n + 1, h => by
      simp only [List.eraseIdx, List.length_cons]
      have := eraseIdx_length as n (by simpa using Nat.lt_of_succ_lt_succ h)
      omega

/-- Claim C1: for every task sequence and every integer index `i` with
`0 ≤ i < length`, `remove_task i` prints nothing, shortens the sequence by
exactly one, keeps every element at a position before `i` where it was, and
moves every element formerly at a position `j > i` to position `j - 1`. -/
theorem remove_task_valid (l : List String) (i : Int)
    (h0 : 0 ≤ i) (h1 : i < (l.length : Int)) :
    (remove_task l i).1.length + 1 = l.length ∧
    (remove_task l i).2 = [] ∧
    (∀ j : Nat, (j : Int) < i → (remove_task l i).1[j]? = l[j]?) ∧
    (∀ j : Nat, i < (j : Int) → j < l.length →
      (remove_task l i).1[j - 1]? = l[j]?) := by
  have hcond : 0 ≤ i ∧ i < (l.length : Int) := ⟨h0, h1⟩
  have hrw : remove_task l i = (l.eraseIdx i.toNat, []) := by
    unfold remove_task
    exact if_pos hcond
  rw [hrw]
  have hn : i.toNat < l.length := by omega
  refine ⟨eraseIdx_length l i.toNat hn, rfl, ?_, ?_⟩
  · intro j hj
    exact eraseIdx_getElem?_lt l i.toNat j (by omega)
  · intro j hji hjl
    have hj1 : 1 ≤ j := by omega
    have : j - 1 + 1 = j := by omega
    rw [eraseIdx_getElem?_ge l i.toNat (j - 1) (by omega), this]

theorem remove_task_valid_witness :
    (remove_task ["a", "b", "c"] 1).1.length + 1 = (["a", "b", "c"] : List String).length ∧
    (remove_task ["a", "b", "c"] 1).2 = [] ∧
    (∀ j : Nat, (j : Int) < 1 → (remove_task ["a", "b", "c"] 1).1[j]? = (["a", "b", "c"] : List String)[j]?) ∧
    (∀ j : Nat, (1 : Int) < (j : Int) → j < (["a", "b", "c"] : List String).length →
      (remove_task ["a", "b", "c"] 1).1[j - 1]? = (["a", "b", "c"] : List String)[j]?) :=
  remove_task_valid ["a", "b", "c"] 1 (by decide) (by decide)

/-- Claim C2: for every task sequence and every integer index `i` with
`i < 0` or `i ≥ length`, `remove_task i` leaves the sequence exactly
unchanged and prints the single diagnostic line `Invalid index`; the
operation is total (no exception), it returns normally. -/
theorem remove_task_invalid (l : List String) (i : Int)
    (h : i < 0 ∨ (l.length : Int) ≤ i) :
    remove_task l i = (l, ["Invalid index"]) := by
  unfold remove_task
  rw [if_neg]
  intro hc
  rcases h with h | h <;> omega

theorem remove_task_invalid_witness :
    remove_task ["a", "b"] 5 = (["a", "b"], ["Invalid index"]) :=
  remove_task_invalid ["a", "b"] 5 (by decide)

/-- Claim C5: for every task sequence and every description string (the
empty string included), `add_task` always succeeds, grows the sequence by
exactly one, places the description at the end, and leaves every previously
stored element at its former position. -/
theorem add_task_spec (l : List String) (task : String) :
    (add_task l task).length = l.length + 1 ∧
    (add_task l task)[l.length]? = some task ∧
    ∀ j : Nat, j < l.length → (add_task l task)[j]? = l[j]? := by
  refine ⟨by simp [add_task], ?_, ?_⟩
  · simp [add_task]
  · intro j hj
    simp [add_task, List.getElem?_append, hj]

theorem add_task_spec_witness :
    (add_task ["x"] "").length = (["x"] : List String).length + 1 ∧
    (add_task ["x"] "")[(["x"] : List String).length]? = some "" ∧
    ∀ j : Nat, j < (["x"] : List String).length →
      (add_task ["x"] "")[j]? = (["x"] : List String)[j]? :=
  add_task_spec ["x"] ""

/- Helper lemmas about the printing loop of `view_tasks`. -/

theorem view_loop_length :
    ∀ (l : List String) (k : Nat), (view_loop k l).length = l.length
  | [], _ => rfl
  | _ :: rest, k => by
      simp only [view_loop, List.length_cons]
      rw [view_loop_length rest (k + 1)]

theorem view_loop_getElem? :
    ∀ (l : List String) (k j : Nat),
      (view_loop k l)[j]? = l[j]?.map (fun t => toString (k + j + 1) ++ ". " ++ t)
  | [], k, j => by simp [view_loop]
  | t :: rest, k, 0 => by simp [view_loop]
  | t :: rest, k, j + 1 => by
      simp only [view_loop, List.getElem?_cons_succ]
      rw [view_loop_getElem? rest (k + 1) j]
      have : k + 1 + j + 1 = k + (j + 1) + 1 := by omega
      rw [this]

/-- Every list of tasks is the result of appending its elements in order to
the empty store via `add_task`. -/
theorem foldl_add_task :
    ∀ (tasks acc : List String), tasks.foldl add_task acc = acc ++ tasks
  | [], acc => by simp
  | t :: rest, acc => by
      simp only [List.foldl]
      rw [foldl_add_task rest (add_task acc t), add_task, List.append_assoc]
      rfl

/-- Claim C4: for the store obtained by appending the given tasks in order
to the empty store, `view_tasks` prints one line per task, in append order,
and the line for the task at zero-based position `i` is
`toString (i + 1) ++ ". " ++ task` (1-based display position). -/
theorem view_tasks_spec (appended : List String) (i : Nat)
    (h : i < appended.length) :
    (view_tasks (appended.foldl add_task [])).length = appended.length ∧
    (view_tasks (appended.foldl add_task []))[i]? =
      appended[i]?.map (fun t => toString (i + 1) ++ ". " ++ t) := by
  rw [foldl_add_task appended [], List.nil_append]
  refine ⟨view_loop_length appended 0, ?_⟩
  rw [view_tasks, view_loop_getElem? appended 0 i, Nat.zero_add]

theorem view_tasks_spec_witness :
    (view_tasks ((["u", "v"] : List String).foldl add_task [])).length = (["u", "v"] : List String).length ∧
    (view_tasks ((["u", "v"] : List String).foldl add_task []))[1]? =
      (["u", "v"] : List String)[1]?.map (fun t => toString (1 + 1) ++ ". " ++ t) :=
  view_tasks_spec ["u", "v"] 1 (by decide)

/-- Claim C6: the scripted top level, starting from the empty store,
appends the two literal tasks, prints `1. Buy groceries` then
`2. Read a book`, and leaves `todo.txt` containing exactly
`Buy groceries\nRead a book\n`. -/
theorem script_behavior :
    script_list = add_task (add_task [] "Buy groceries") "Read a book" ∧
    script_stdout = ["1. Buy groceries", "2. Read a book"] ∧
    script_file = "Buy groceries\nRead a book\n" := by
  refine ⟨rfl, ?_, ?_⟩ <;> decide

/-- Claim C8: calling `view_tasks` twice with no mutation of the store in
between produces identical output both times, and the store after the
second call is the store after the first. -/
theorem view_tasks_idempotent (l : List String) :
    (view_tasks_call ((view_tasks_call l).1)).2 = (view_tasks_call l).2 ∧
    (view_tasks_call ((view_tasks_call l).1)).1 = (view_tasks_call l).1 :=
  ⟨rfl, rfl⟩

/-- Claim C9: `view_tasks` and `save_tasks` are read-only on the in-memory
store: after either call the task sequence is exactly what it was before.
In the source neither function assigns to `todo_list` or calls a mutating
method on it, so the embedded calls return the store as received. -/
theorem view_save_read_only (l : List String) :
    (view_tasks_call l).1 = l ∧ (save_tasks_call l).1 = l :=
  ⟨rfl, rfl⟩

/-- Claim C10: on the empty store, `save_tasks` still truncates the file
and writes nothing, leaving a zero-length file whatever the previous
content was, and `view_tasks` prints nothing; both are total functions,
returning normally. -/
theorem empty_store_behavior (oldContent : String) :
    save_tasks_file oldContent [] = "" ∧
    (save_tasks_file oldContent []).length = 0 ∧
    view_tasks [] = [] :=
  ⟨rfl, rfl, rfl⟩

/- Fault-model lemma: the write loop raises exactly when some write within
the list raises. -/

theorem write_loop_raised :
    ∀ (l : List String) (writeFails : Nat → Bool) (k : Nat) (acc : String),
      (write_loop writeFails k acc l).2 = true ↔
        ∃ i, i < l.length ∧ writeFails (k + i) = true
  | [], writeFails, k, acc => by simp [write_loop]
  | t :: rest, writeFails, k, acc => by
      simp only [write_loop, List.length_cons]
      by_cases h : writeFails k = true
      · rw [if_pos h]
        constructor
        · intro _
          exact ⟨0, by omega, by simpa using h⟩
        · intro _
          rfl
      · rw [if_neg h]
        rw [write_loop_raised rest writeFails (k + 1) (acc ++ (t ++ "\n"))]
        constructor
        · rintro ⟨i, hi, hw⟩
          refine ⟨i + 1, by omega, ?_⟩
          rw [show k + (i + 1) = k + 1 + i by omega]
          exact hw
        · rintro ⟨i, hi, hw⟩
          cases i with
          | zero =>
              rw [Nat.add_zero] at hw
              exact absurd hw h
          | succ j =>
              refine ⟨j, by omega, ?_⟩
              rw [show k + 1 + j = k + (j + 1) by omega]
              exact hw

/-- Claim C7: `save_tasks` catches no I/O error.  Under the fault model,
for every task list and every fault oracle, an exception propagates to the
caller exactly when the `open` call or some write within the loop raises,
and no file handle is left open on any exit path: the `with` statement
closes it on normal and exceptional exit alike, and when `open` itself
raises no handle was ever acquired. -/
theorem save_tasks_error_propagation (l : List String) (openFails : Bool)
    (writeFails : Nat → Bool) :
    (save_tasks_run l openFails writeFails).handleOpen = false ∧
    ((save_tasks_run l openFails writeFails).raised = true ↔
      openFails = true ∨ ∃ i, i < l.length ∧ writeFails i = true) := by
  cases openFails with
  | true => simp [save_tasks_run]
  | false =>
      refine ⟨rfl, ?_⟩
      show (write_loop writeFails 0 "" l).2 = true ↔ _
      rw [write_loop_raised l writeFails 0 ""]
      simp

/- String-level helper lemmas for the saved file format. -/

theorem save_tasks_go_data (f : String → String → String)
    (hf : f = fun acc task => acc ++ (task ++ "\n")) :
    ∀ (l : List String) (acc : String),
      (l.foldl f acc).data =
        acc.data ++ (l.map (fun t => t.data ++ ['\n'])).flatten
  | [], acc => by simp
  | t :: rest, acc => by
      simp only [List.foldl, List.map, List.flatten_cons]
      rw [save_tasks_go_data f hf rest (f acc t), hf]
      simp only [String.data_append]
      rw [List.append_assoc]

/-- The character content of the saved file: each description's characters
followed by one newline character, concatenated in order. -/
theorem save_tasks_data (l : List String) :
    (save_tasks l).data = (l.map (fun t => t.data ++ ['\n'])).flatten := by
  rw [save_tasks, save_tasks_go_data _ rfl l ""]
  rfl

theorem split_nl_ne_nil : ∀ cs : List Char, split_nl cs ≠ []
  | [] => by simp [split_nl]
  | c :: rest => by
      simp only [split_nl]
      cases h : split_nl rest with
      | nil => simp
      | cons line more =>
          by_cases hc : c = '\n' <;> simp [hc]

theorem split_nl_append_newline :
    ∀ cs ds : List Char, ('\n' : Char) ∉ cs →
      split_nl (cs ++ '\n' :: ds) = cs :: split_nl ds
  | [], ds, _ => by
      simp only [List.nil_append, split_nl]
      cases h : split_nl ds with
      | nil => exact absurd h (split_nl_ne_nil ds)
      | cons line more => simp
  | c :: cs, ds, h => by
      have hc : c ≠ '\n' := fun hce => h (hce ▸ List.mem_cons_self c cs)
      have hcs : ('\n' : Char) ∉ cs := fun hm => h (List.mem_cons_of_mem c hm)
      simp only [List.cons_append, split_nl]
      rw [show cs.append ('\n' :: ds) = cs ++ '\n' :: ds from rfl,
        split_nl_append_newline cs ds hcs]
      simp [hc]

/-- Splitting the saved file at newlines yields the descriptions followed
by one empty trailing segment, provided no description contains a newline
character. -/
theorem split_nl_save_tasks :
    ∀ l : List String, (∀ t ∈ l, ('\n' : Char) ∉ t.data) →
      split_nl (save_tasks l).data = l.map String.data ++ [[]]
  | [], _ => by
      rw [save_tasks_data]
      simp [split_nl]
  | t :: rest, h => by
      rw [save_tasks_data]
      simp only [List.map, List.flatten_cons]
      rw [List.append_assoc] at *
      have ht : ('\n' : Char) ∉ t.data := h t (List.mem_cons_self t rest)
      have hrest : ∀ u ∈ rest, ('\n' : Char) ∉ u.data :=
        fun u hu => h u (List.mem_cons_of_mem t hu)
      have hflat :
          (rest.map (fun u => u.data ++ ['\n'])).flatten = (save_tasks rest).data :=
        (save_tasks_data rest).symm
      rw [show t.data ++ (['\n'] ++ (rest.map (fun u => u.data ++ ['\n'])).flatten)
            = t.data ++ '\n' :: (save_tasks rest).data by rw [hflat]; rfl]
      rw [split_nl_append_newline t.data (save_tasks rest).data ht]
      rw [split_nl_save_tasks rest hrest]
      rfl

theorem map_mk_data : ∀ l : List String, (l.map String.data).map String.mk = l
  | [] => rfl
  | s :: rest => by
      simp only [List.map]
      rw [map_mk_data rest]

/-- Claim C3 counterexample: the claim quantifies over every task sequence,
but a description containing an embedded newline breaks the read-back: the
file for the single task `a\nb` reads back as the two lines `a`, `b`. -/
theorem save_roundtrip_counterexample :
    read_lines (save_tasks_file "" ["a\nb"]) ≠ ["a\nb"] ∧
    read_lines (save_tasks_file "" ["a\nb"]) = ["a", "b"] := by
  constructor <;> decide

/-- Claim C3, amended: for every prior file content, `save_tasks` truncates
the file and writes exactly each description followed by one newline, in
order, with nothing else; and, provided no description contains a newline
character, reading the file back as newline-delimited text yields exactly
the sequence of descriptions in order. -/
theorem save_tasks_format_roundtrip (oldContent : String) (l : List String) :
    save_tasks_file oldContent l = String.join (l.map (fun t => t ++ "\n")) ∧
    ((∀ t ∈ l, ('\n' : Char) ∉ t.data) →
      read_lines (save_tasks_file oldContent l) = l) := by
  constructor
  · apply String.ext
    rw [String.data_join, save_tasks_file, save_tasks_data, List.map_map]
    rfl
  · intro h
    rw [save_tasks_file, read_lines]
    rw [split_nl_save_tasks l h]
    simp only [List.map_append, map_mk_data]
    rw [show ([[]] : List (List Char)).map (fun cs => String.mk cs) = [""] from rfl]
    rw [List.getLast?_concat, if_pos rfl, List.dropLast_concat]

theorem save_tasks_format_roundtrip_witness :
    read_lines (save_tasks_file "stale" ["a", "b"]) = ["a", "b"] :=
  (save_tasks_format_roundtrip "stale" ["a", "b"]).2 (by decide)

end TodoScript
